/-
Verification of the hft_bot trading engine against its specification.

The Rust sources are shallowly embedded: `f64` prices and monetary values
become `ℚ`, `u64`/`u32`/`usize` become `ℕ`, `i32` positions become `ℤ`
(overflow is assumed absent, as configured limits and quantities are small),
`BTreeMap` becomes a price-sorted association list, `HashMap` becomes an
association list with replace-on-insert, and fallible or panicking code
returns `Option`.  Async I/O is determinized by passing the outcome of each
external interaction (parse result, strategy output, send result,
confirmation read) as explicit oracle inputs.
-/
import Mathlib

set_option linter.unusedVariables false

/-! ## Generic helpers -/

/-- Does `need` occur as a prefix of some suffix of the list?  Mirrors Rust
`str::contains` (substring containment) on the character level. -/
def listContainsSub (need : List Char) : List Char → Bool
  | [] => need.isEmpty
  | c :: t => need.isPrefixOf (c :: t) || listContainsSub need t

/-- Rust `str::contains(needle)`: substring containment. -/
def strContains (hay need : String) : Bool :=
  listContainsSub need.toList hay.toList

/-- The last `n` elements of a list, in order (the contents of a FIFO window
of capacity `n` after pushing the whole list through it). -/
def takeLast (n : ℕ) (l : List ℚ) : List ℚ :=
  l.drop (l.length - n)

/-! ## src/market_data/order_book.rs -/

namespace order_book

/-- Order side (buy or sell), from `order_book.rs`. -/
inductive OrderSide where
  | Bid
  | Ask
deriving DecidableEq

/-- An order resting in the book, from `order_book.rs`:
`{id: u64, price: f64, quantity: u64, side: OrderSide}`. -/
structure Order where
  id : ℕ
  price : ℚ
  quantity : ℕ
  side : OrderSide
deriving DecidableEq

/-- Insert into a price-ascending association list, mirroring
`BTreeMap::entry(price).or_insert_with(Vec::new).push(order)`:
append to the existing level vector, or create a fresh level. -/
def insertLevel (p : ℚ) (o : Order) : List (ℚ × List Order) → List (ℚ × List Order)
  | [] => [(p, [o])]
  | (q, v) :: rest =>
    if p < q then (p, [o]) :: (q, v) :: rest
    else if p = q then (q, v ++ [o]) :: rest
    else (q, v) :: insertLevel p o rest

/-- `bids.get_mut(&price)` followed by `orders.retain(|o| o.id != order_id)`
and removal of the level when it becomes empty (`remove_order`, lines 64-81). -/
def removeFromLevels (p : ℚ) (i : ℕ) : List (ℚ × List Order) → List (ℚ × List Order)
  | [] => []
  | (q, v) :: rest =>
    if q = p then
      let v2 := v.filter (fun o => o.id ≠ i)
      if v2.isEmpty then rest else (q, v2) :: rest
    else (q, v) :: removeFromLevels p i rest

/-- Set the quantity of the first order with the given id in a level vector,
mirroring the `for o in orders.iter_mut()` loop of `update_order`. -/
def setQtyFirst (i newq : ℕ) : List Order → List Order
  | [] => []
  | o :: rest =>
    if o.id = i then { o with quantity := newq } :: rest
    else o :: setQtyFirst i newq rest

/-- `update_order`'s effect on one side's tree: at the level keyed by `p`,
update the first entry with the id and report whether one was found
(the Rust loop returns `Some(())` at the first match, `None` otherwise). -/
def updateInLevels (p : ℚ) (i newq : ℕ) : List (ℚ × List Order) → Option Unit × List (ℚ × List Order)
  | [] => (none, [])
  | (q, v) :: rest =>
    if q = p then
      ((if v.any (fun o => o.id = i) then some () else none),
       (q, setQtyFirst i newq v) :: rest)
    else
      let r := updateInLevels p i newq rest
      (r.1, (q, v) :: r.2)

/-- `HashMap::insert` (replace an existing binding, else append). -/
def insertById (i : ℕ) (o : Order) : List (ℕ × Order) → List (ℕ × Order)
  | [] => [(i, o)]
  | (j, p) :: rest => if j = i then (i, o) :: rest else (j, p) :: insertById i o rest

/-- `HashMap::get` on the id table. -/
def lookupById (i : ℕ) : List (ℕ × Order) → Option Order
  | [] => none
  | (j, p) :: rest => if j = i then some p else lookupById i rest

/-- `HashMap::remove` on the id table (value dropped; `remove_order` gets the
value from a `get`-equivalent first). -/
def eraseById (i : ℕ) : List (ℕ × Order) → List (ℕ × Order)
  | [] => []
  | (j, p) :: rest => if j = i then rest else (j, p) :: eraseById i rest

/-- The order book: bids and asks as price-sorted level lists plus the id
index, from `order_book.rs` lines 25-32. -/
structure OrderBook where
  bids : List (ℚ × List Order)
  asks : List (ℚ × List Order)
  orders_by_id : List (ℕ × Order)
deriving DecidableEq

/-- `OrderBook::new`. -/
def OrderBook.new : OrderBook := ⟨[], [], []⟩

/-- `OrderBook::add_order` (lines 43-57): push into the side's level and
insert into the id index. -/
def OrderBook.add_order (ob : OrderBook) (o : Order) : OrderBook :=
  let ob1 :=
    match o.side with
    | .Bid => { ob with bids := insertLevel o.price o ob.bids }
    | .Ask => { ob with asks := insertLevel o.price o ob.asks }
  { ob1 with orders_by_id := insertById o.id o ob1.orders_by_id }

/-- `OrderBook::remove_order` (lines 59-87): take the order out of the id
index, then retain-filter its price level, dropping the level if emptied.
Returns the removed order (or `none` for an unknown id) with the new book. -/
def OrderBook.remove_order (ob : OrderBook) (order_id : ℕ) : Option Order × OrderBook :=
  match lookupById order_id ob.orders_by_id with
  | none => (none, ob)
  | some o =>
    let ob1 := { ob with orders_by_id := eraseById order_id ob.orders_by_id }
    match o.side with
    | .Bid => (some o, { ob1 with bids := removeFromLevels o.price order_id ob1.bids })
    | .Ask => (some o, { ob1 with asks := removeFromLevels o.price order_id ob1.asks })

/-- `OrderBook::update_order` (lines 89-120): read price and side from the id
index, then set the quantity of the matching entry inside the level vector.
Note that the Rust code never writes the new quantity back into
`orders_by_id` — only the level entry is mutated; the embedding reproduces
that behaviour faithfully. -/
def OrderBook.update_order (ob : OrderBook) (order_id new_quantity : ℕ) : Option Unit × OrderBook :=
  match lookupById order_id ob.orders_by_id with
  | none => (none, ob)
  | some o =>
    match o.side with
    | .Bid =>
      let r := updateInLevels o.price order_id new_quantity ob.bids
      (r.1, { ob with bids := r.2 })
    | .Ask =>
      let r := updateInLevels o.price order_id new_quantity ob.asks
      (r.1, { ob with asks := r.2 })

/-- `OrderBook::get_order` (lines 154-156): lookup in the id index. -/
def OrderBook.get_order (ob : OrderBook) (order_id : ℕ) : Option Order :=
  lookupById order_id ob.orders_by_id

/-- `OrderBook::get_best_bid`: last (highest) key of the ascending bid tree. -/
def OrderBook.get_best_bid (ob : OrderBook) : Option ℚ :=
  (ob.bids.map Prod.fst).getLast?

/-- `OrderBook::get_best_ask`: first (lowest) key of the ascending ask tree. -/
def OrderBook.get_best_ask (ob : OrderBook) : Option ℚ :=
  (ob.asks.map Prod.fst).head?

/-- `OrderBook::get_bids_at_price`: copy of the level vector at a price. -/
def OrderBook.get_bids_at_price (ob : OrderBook) (price : ℚ) : Option (List Order) :=
  (ob.bids.lookup price)

/-- `OrderBook::get_asks_at_price`. -/
def OrderBook.get_asks_at_price (ob : OrderBook) (price : ℚ) : Option (List Order) :=
  (ob.asks.lookup price)

/-- All orders resting in the two level collections. -/
def levelOrders (ob : OrderBook) : List Order :=
  (ob.bids.map Prod.snd).foldr (· ++ ·) [] ++ (ob.asks.map Prod.snd).foldr (· ++ ·) []

/-- The spec's §3 invariant, as a decidable check: every order in a level
collection is bound to its id in the identifier table with the same field
values, and every identifier-table entry occurs exactly once across the
level collections, again with the same field values. -/
def lockstepB (ob : OrderBook) : Bool :=
  (levelOrders ob).all (fun o => lookupById o.id ob.orders_by_id == some o) &&
  ob.orders_by_id.all (fun p => (levelOrders ob).filter (fun o => o.id == p.1) == [p.2])

end order_book

/-- The singleton bid book used by the order-book test at
`order_book.rs` lines 177-195: order 1 at price 10.0, quantity 10. -/
def c1book0 : order_book.OrderBook :=
  order_book.OrderBook.new.add_order ⟨1, 10, 10, .Bid⟩

/-- C1: amending order 1's quantity to 20 succeeds, but a lookup by id still
returns the old quantity 10 — the id index is never written, only the level
entry (which does show 20).  This contradicts the claim and the repository's
own test (`assert_eq!(updated_order1.quantity, 20)`). -/
theorem C1_update_order_stale_id_index :
    ((c1book0.update_order 1 20).1 = some ()) ∧
    ((c1book0.update_order 1 20).2.get_order 1 = some ⟨1, 10, 10, .Bid⟩) ∧
    ((c1book0.update_order 1 20).2.get_bids_at_price 10 = some [⟨1, 10, 20, .Bid⟩]) ∧
    (some (⟨1, 10, 10, .Bid⟩ : order_book.Order) ≠ some (⟨1, 10, 20, .Bid⟩ : order_book.Order)) := by
  refine ⟨rfl, rfl, rfl, ?_⟩
  decide

/-- C2: the lockstep invariant holds for the book built by `add_order` alone,
but is violated after `update_order`: the level entry carries quantity 20
while the identifier table still carries 10, so an order is present in a
level collection and in the identifier table with different field values. -/
theorem C2_lockstep_violated_by_update_order :
    order_book.lockstepB c1book0 = true ∧
    order_book.lockstepB ((c1book0.update_order 1 20).2) = false := by
  constructor <;> decide

/-! ## src/market_data/parser.rs -/

/-- A tick of market data: `{price: f64, volume: u64}`. -/
structure Tick where
  price : ℚ
  volume : ℕ
deriving DecidableEq

/-! ## src/strategy/mod.rs -/

namespace strategy

/-- Order side from `strategy/mod.rs`. -/
inductive OrderSide where
  | Buy
  | Sell
deriving DecidableEq

/-- A candidate order produced by a strategy:
`{symbol: String, price: f64, quantity: u64, side: OrderSide}`. -/
structure Order where
  symbol : String
  price : ℚ
  quantity : ℕ
  side : OrderSide
deriving DecidableEq

end strategy

/-! ## src/strategy/risk_management.rs -/

/-- The risk-gate state, from `risk_management.rs` lines 4-11. -/
structure RiskManager where
  max_position_size : ℕ
  max_loss_per_trade : ℚ
  stop_loss_percentage : ℚ
  initial_capital : ℚ
  current_capital : ℚ
  current_position : ℤ
deriving DecidableEq

/-- `RiskManager::new` (lines 14-28): capital starts at `initial_capital`,
position at 0. -/
def RiskManager.new (max_position_size : ℕ) (max_loss_per_trade stop_loss_percentage initial_capital : ℚ) : RiskManager :=
  ⟨max_position_size, max_loss_per_trade, stop_loss_percentage, initial_capital, initial_capital, 0⟩

/-- `RiskManager::evaluate_order` (lines 31-68): clamp the quantity when the
hypothetical post-trade position breaches the limit, then reject on the loss
bound, then reject a zero quantity, else emit a copy of the order with the
adjusted quantity.  `(x).max(0) as u64` is `Int.toNat`. -/
def RiskManager.evaluate_order (rm : RiskManager) (order : strategy.Order) (current_price : ℚ) : Option strategy.Order :=
  let potential_position : ℤ :=
    match order.side with
    | .Buy => rm.current_position + order.quantity
    | .Sell => rm.current_position - order.quantity
  let adjusted_quantity : ℕ :=
    if rm.max_position_size < potential_position.natAbs then
      match order.side with
      | .Buy => ((rm.max_position_size : ℤ) - rm.current_position).toNat
      | .Sell => ((rm.max_position_size : ℤ) + rm.current_position).toNat
    else order.quantity
  let potential_loss : ℚ := current_price * adjusted_quantity * rm.stop_loss_percentage
  if rm.max_loss_per_trade < potential_loss then none
  else if adjusted_quantity = 0 then none
  else some { order with quantity := adjusted_quantity }

/-- `RiskManager::update_position` (lines 71-77). -/
def RiskManager.update_position (rm : RiskManager) (order : strategy.Order) : RiskManager :=
  match order.side with
  | .Buy => { rm with current_position := rm.current_position + order.quantity }
  | .Sell => { rm with current_position := rm.current_position - order.quantity }

/-- `RiskManager::update_capital` (lines 80-83). -/
def RiskManager.update_capital (rm : RiskManager) (profit : ℚ) : RiskManager :=
  { rm with current_capital := rm.current_capital + profit }

/-- The quantity the spec's §4.5 steps 1-2 prescribe: if the hypothetical
post-trade position breaches `max_position_size`, clamp to the maximum
tradable amount that keeps the position within the limit for that side
(at least 0), else keep the requested quantity. -/
def specClampedQuantity (maxPos : ℕ) (pos : ℤ) (side : strategy.OrderSide) (qty : ℕ) : ℕ :=
  if maxPos < (match side with | .Buy => pos + qty | .Sell => pos - qty).natAbs then
    match side with
    | .Buy => ((maxPos : ℤ) - pos).toNat
    | .Sell => ((maxPos : ℤ) + pos).toNat
  else qty

/-! ## src/market_data/aggregator.rs -/

/-- The aggregator state, from `aggregator.rs` lines 7-20.  The window list
keeps the oldest price at the head, matching `VecDeque` front. -/
structure MarketDataAggregator where
  price_window : List ℚ
  window_size : ℕ
  sma : Option ℚ
  total_volume : ℕ
  high_price : Option ℚ
  low_price : Option ℚ
  weights : Option (List ℚ)
deriving DecidableEq

/-- `MarketDataAggregator::new` (lines 23-40).  The construction-time panic on
a weight vector whose length differs from the window size is modelled as
`none`. -/
def MarketDataAggregator.new (window_size : ℕ) (weights : Option (List ℚ)) : Option MarketDataAggregator :=
  match weights with
  | some w =>
    if w.length ≠ window_size then none
    else some ⟨[], window_size, none, 0, none, none, some w⟩
  | none => some ⟨[], window_size, none, 0, none, none, none⟩

/-- `MarketDataAggregator::calculate_sma` (lines 61-78): `none` on an empty
window; weighted mode takes `Σ price[i] * weights[i]` positionally from the
oldest entry; unweighted mode divides the window sum by its length. -/
def MarketDataAggregator.calculate_sma (a : MarketDataAggregator) : Option ℚ :=
  if a.price_window.isEmpty then none
  else
    match a.weights with
    | some ws => some ((List.zipWith (fun p w => p * w) a.price_window ws).sum)
    | none => some (a.price_window.sum / (a.price_window.length : ℚ))

/-- `MarketDataAggregator::update` (lines 43-59): push the price, evict the
oldest entry past capacity, recompute the average, accumulate volume, and
fold the running high/low. -/
def MarketDataAggregator.update (a : MarketDataAggregator) (tick : Tick) : MarketDataAggregator :=
  let pw1 := a.price_window ++ [tick.price]
  let pw2 := if a.window_size < pw1.length then pw1.tail else pw1
  let a1 := { a with price_window := pw2 }
  { a1 with
    sma := a1.calculate_sma
    total_volume := a.total_volume + tick.volume
    high_price := some (match a.high_price with | some h => max h tick.price | none => tick.price)
    low_price := some (match a.low_price with | some l => min l tick.price | none => tick.price) }

/-- Feed a sequence of ticks through the aggregator. -/
def runAgg (a : MarketDataAggregator) (ts : List Tick) : MarketDataAggregator :=
  ts.foldl MarketDataAggregator.update a

/-! ## src/strategy/strategy_1.rs -/

/-- The moving-average crossover strategy state, from `strategy_1.rs`
lines 5-9. -/
structure SimpleMovingAverageStrategy where
  window_size : ℕ
  prices : List ℚ
  symbol : String
deriving DecidableEq

/-- `SimpleMovingAverageStrategy::new` (lines 11-19): the window size is
hard-coded to 10 and the symbol to `"SYMBOL"`. -/
def SimpleMovingAverageStrategy.new : SimpleMovingAverageStrategy :=
  ⟨10, [], "SYMBOL"⟩

/-- Lines 23-26 of `strategy_1.rs`: push the new price and drop the oldest
entry once the window exceeds its capacity. -/
def pushWindow (window_size : ℕ) (prices : List ℚ) (p : ℚ) : List ℚ :=
  let prices1 := prices ++ [p]
  if window_size < prices1.length then prices1.tail else prices1

/-- `SimpleMovingAverageStrategy::evaluate` (lines 22-57): push the price,
drop the oldest past capacity, report no signal while the window is short,
else compare the price with the window mean (above ⇒ Buy 1, below ⇒ Sell 1,
equal ⇒ none).  Returns the emitted order with the updated state. -/
def SimpleMovingAverageStrategy.evaluate (s : SimpleMovingAverageStrategy) (market_data : Tick) :
    Option strategy.Order × SimpleMovingAverageStrategy :=
  let prices2 := pushWindow s.window_size s.prices market_data.price
  let s1 := { s with prices := prices2 }
  if prices2.length < s.window_size then (none, s1)
  else
    let sma : ℚ := prices2.sum / (prices2.length : ℚ)
    if sma < market_data.price then
      (some ⟨s.symbol, market_data.price, 1, .Buy⟩, s1)
    else if market_data.price < sma then
      (some ⟨s.symbol, market_data.price, 1, .Sell⟩, s1)
    else (none, s1)

/-- Run the crossover strategy over a tick sequence, collecting the emitted
signal of each step in order. -/
def runSMAStrategy (s : SimpleMovingAverageStrategy) (ts : List Tick) :
    List (Option strategy.Order) × SimpleMovingAverageStrategy :=
  ts.foldl
    (fun acc t =>
      let r := acc.2.evaluate t
      (acc.1 ++ [r.1], r.2))
    ([], s)

/-! ## src/exchange/binary.rs -/

/-- A binary framed message: `{message_type: u8, data: Vec<u8>}`.  Bytes are
naturals below 256; the fields are carried as plain naturals since the codec
moves them unchanged. -/
structure BinaryMessage where
  message_type : ℕ
  data : List ℕ
deriving DecidableEq

/-- The four little-endian bytes of `n as u32`. -/
def u32le (n : ℕ) : List ℕ :=
  [n % 256, n / 256 % 256, n / 65536 % 256, n / 16777216 % 256]

/-- `BinaryMessage::serialize` (lines 19-32): one type byte, the four-byte
little-endian `data.len() as u32`, then the payload. -/
def BinaryMessage.serialize (m : BinaryMessage) : List ℕ :=
  m.message_type :: (u32le (m.data.length % 4294967296) ++ m.data)

/-- `BinaryMessage::deserialize` (lines 34-51): read the type byte and the
little-endian length, then `read_exact` that many payload bytes (failing when
the buffer is short; surplus bytes after the payload are ignored, as the
cursor is simply left there). -/
def BinaryMessage.deserialize : List ℕ → Option BinaryMessage
  | t :: b0 :: b1 :: b2 :: b3 :: rest =>
    let data_length := b0 + 256 * b1 + 65536 * b2 + 16777216 * b3
    if data_length ≤ rest.length then some ⟨t, rest.take data_length⟩ else none
  | _ => none

/-! ## src/exchange/connection.rs and src/main.rs: connection retry -/

/-- The retry loop of `ExchangeConnection::connect` (`connection.rs`
lines 24-40) after the initial attempt.  `tryConnect k` is the outcome of the
`k`-th `TcpStream::connect` call (0-based); `fuel` is the number of loop
iterations still allowed (`max_attempts - attempts`), `calls` the number of
connect calls made so far, `res` the outcome of the latest call.  Returns the
total number of connect calls with the final outcome. -/
def tcpConnectRetry (tryConnect : ℕ → Bool) : ℕ → ℕ → Bool → ℕ × Bool
  | 0, calls, res => (calls, res)
  | fuel + 1, calls, res =>
    if res then (calls, res)
    else tcpConnectRetry tryConnect fuel (calls + 1) (tryConnect calls)

/-- The hard-coded `max_attempts` of `ExchangeConnection::connect`
(`connection.rs` line 26). -/
def connectMaxAttempts : ℕ := 5

/-- `ExchangeConnection::connect`: one initial `TcpStream::connect` call,
then up to `max_attempts = 5` retries while the result is an error. -/
def exchangeConnect (tryConnect : ℕ → Bool) : ℕ × Bool :=
  tcpConnectRetry tryConnect connectMaxAttempts 1 (tryConnect 0)

/-- The loop of `initialize_exchange_connection` (`main.rs` lines 310-339):
`while attempts < max_retries`, attempt once per iteration, return on the
first success.  Returns the number of connect calls with the outcome. -/
def initConnRetry (tryConnect : ℕ → Bool) : ℕ → ℕ → ℕ × Bool
  | 0, calls => (calls, false)
  | fuel + 1, calls =>
    if tryConnect calls then (calls + 1, true)
    else initConnRetry tryConnect fuel (calls + 1)

/-- `initialize_exchange_connection` (`main.rs` lines 310-339), projected to
its attempt counting: makes at most `max_retries` attempts and fails fatally
once they are exhausted. -/
def initialize_exchange_connection (tryConnect : ℕ → Bool) (max_retries : ℕ) : ℕ × Bool :=
  initConnRetry tryConnect max_retries 0

/-! ## src/main.rs: process_market_data -/

/-- Outcome of the bounded confirmation read
`timeout(Duration::from_secs(5), exchange.receive_message()).await??`:
a response line, an elapsed timeout, or a transport error. -/
inductive RecvOutcome where
  | msg (s : String)
  | timedOut
  | ioError
deriving DecidableEq

/-- The external interactions of one `process_market_data` call, determinized:
whether the line was a heartbeat ack, the parser result (`none` = ParseError),
the strategy's output for the tick, whether `send_message` succeeded, and the
confirmation-read outcome. -/
structure MDEnv where
  isHeartbeatAck : Bool
  parsed : Option Tick
  strategyOrder : Option strategy.Order
  sendOk : Bool
  confirm : RecvOutcome
deriving DecidableEq

/-- Did the confirmation read yield a response containing the `"EXECUTED"`
marker? -/
def confirmExecuted : RecvOutcome → Bool
  | .msg s => strContains s "EXECUTED"
  | .timedOut => false
  | .ioError => false

/-- `process_market_data` (`main.rs` lines 211-251), projected to the
aggregator and risk-manager state it threads: early return on a heartbeat
ack; error return on a parse failure; aggregator update; strategy and risk
evaluation; on an approved order, send it, read the confirmation within the
timeout, and call `update_position` only when the response contains
`"EXECUTED"`.  The `Bool` is `true` for `Ok(())` and `false` for an error
return (`?` propagation); the state captures all mutations performed before
the return. -/
def process_market_data (agg : MarketDataAggregator) (rm : RiskManager) (env : MDEnv) :
    MarketDataAggregator × RiskManager × Bool :=
  if env.isHeartbeatAck then (agg, rm, true)
  else
    match env.parsed with
    | none => (agg, rm, false)
    | some tick =>
      let agg1 := agg.update tick
      match env.strategyOrder with
      | none => (agg1, rm, true)
      | some order =>
        match rm.evaluate_order order tick.price with
        | none => (agg1, rm, true)
        | some approved =>
          if env.sendOk then
            match env.confirm with
            | .msg s =>
              if strContains s "EXECUTED" then (agg1, rm.update_position approved, true)
              else (agg1, rm, true)
            | .timedOut => (agg1, rm, false)
            | .ioError => (agg1, rm, false)
          else (agg1, rm, false)

/-! ## Concrete example inputs shared by the aggregator claims -/

/-- The tick sequence of the aggregator unit tests: prices 10, 11, 12, 13 with
volumes 100, 150, 200, 250. -/
def exampleTicks : List Tick := [⟨10, 100⟩, ⟨11, 150⟩, ⟨12, 200⟩, ⟨13, 250⟩]

/-- The freshly constructed weighted aggregator of the WMA test: window 3,
weights `[0.1, 0.3, 0.6]`. -/
def c5agg0 : MarketDataAggregator := ⟨[], 3, none, 0, none, none, some [1/10, 3/10, 6/10]⟩

/-- The freshly constructed unweighted aggregator: window 3, no weights. -/
def c7agg0 : MarketDataAggregator := ⟨[], 3, none, 0, none, none, none⟩

/-- C5: in weighted mode the code computes the raw positional weighted sum
over the present samples, so with window 3, weights `[0.1, 0.3, 0.6]` and
prices 10, 11, 12, 13 the averages are `1.0, 4.3, 11.5, 12.5` — not the
`10.0, 10.7, 11.5, 12.5` asserted by the claim and by the repository's own
`test_market_data_aggregator_wma`; the partial-window values differ. -/
theorem C5_weighted_partial_window_trace :
    MarketDataAggregator.new 3 (some [1/10, 3/10, 6/10]) = some c5agg0 ∧
    [1, 2, 3, 4].map (fun n => (runAgg c5agg0 (exampleTicks.take n)).sma)
      = [some 1, some (43/10), some (23/2), some (25/2)] ∧
    (some (1 : ℚ) ≠ some (10 : ℚ) ∧ some ((43 : ℚ)/10) ≠ some ((107 : ℚ)/10)) := by
  refine ⟨by norm_num [MarketDataAggregator.new, c5agg0], ?_, by norm_num⟩
  norm_num [c5agg0, exampleTicks, runAgg, MarketDataAggregator.update,
    MarketDataAggregator.calculate_sma]

/-! ## C6: moving-average crossover -/

/-- A crossover-strategy state with window size 3 and an empty window
(the constructor itself fixes the window size at 10). -/
def c6s0 : SimpleMovingAverageStrategy := ⟨3, [], "SYMBOL"⟩

/-- Prices 1, 2, 3, 10 as ticks (volumes unused by the strategy). -/
def c6ticks : List Tick := [⟨1, 0⟩, ⟨2, 0⟩, ⟨3, 0⟩, ⟨10, 0⟩]

/-- C6 counterexample: with window size 3, the third price already fills the
window (contents `[1, 2, 3]`, mean 2, price 3 above the mean), so the third
tick emits a Buy of quantity 1 — the claim's "prices 1, 2, 3 ⇒ no order" is
false on the code. -/
theorem C6_counterexample_third_tick_emits_buy :
    (runSMAStrategy c6s0 (c6ticks.take 3)).1
      = [none, none, some ⟨"SYMBOL", 3, 1, .Buy⟩] ∧
    some (⟨"SYMBOL", 3, 1, .Buy⟩ : strategy.Order) ≠ none := by
  refine ⟨?_, by simp⟩
  norm_num [runSMAStrategy, c6s0, c6ticks, SimpleMovingAverageStrategy.evaluate, pushWindow]

/-- C6 amended: the strategy emits no order while the price window is still
below the configured capacity (and the constructor fixes that capacity at
10); with window size 3 and prices 1, 2, 3, 10 the first two ticks emit no
order, while the third (window `[1,2,3]`, mean 2 < 3) and the fourth (window
`[2,3,10]`, mean 5 < 10) each emit a Buy of quantity 1. -/
theorem C6_amended_crossover :
    (∀ (s : SimpleMovingAverageStrategy) (t : Tick),
      (s.evaluate t).2.prices.length < s.window_size → (s.evaluate t).1 = none) ∧
    SimpleMovingAverageStrategy.new.window_size = 10 ∧
    (runSMAStrategy c6s0 c6ticks).1
      = [none, none, some ⟨"SYMBOL", 3, 1, .Buy⟩, some ⟨"SYMBOL", 10, 1, .Buy⟩] := by
  refine ⟨?_, rfl, ?_⟩
  · intro s t h
    simp only [SimpleMovingAverageStrategy.evaluate] at h ⊢
    generalize hpw : pushWindow s.window_size s.prices t.price = pw at h ⊢
    by_cases hc : pw.length < s.window_size
    · simp [hc]
    · exfalso
      repeat' split at h
      all_goals simp_all
  · norm_num [runSMAStrategy, c6s0, c6ticks, SimpleMovingAverageStrategy.evaluate,
      pushWindow]

/-- Witness for the hypothesis of `C6_amended_crossover`: the very first tick
leaves the window at length 1 < 3, and indeed emits no order. -/
theorem C6_witness :
    ((c6s0.evaluate ⟨1, 0⟩).2.prices.length < c6s0.window_size) ∧
    (c6s0.evaluate ⟨1, 0⟩).1 = none :=
  ⟨by decide, C6_amended_crossover.1 c6s0 ⟨1, 0⟩ (by decide)⟩

/-! ## C8: connection retry counts -/

/-- When every attempt fails, `initialize_exchange_connection`'s loop makes
one attempt per remaining iteration. -/
theorem initConnRetry_allFail (fuel calls : ℕ) :
    initConnRetry (fun _ => false) fuel calls = (calls + fuel, false) := by
  induction fuel generalizing calls with
  | zero => simp [initConnRetry]
  | succ n ih => simp [initConnRetry, ih]; omega

/-- `initialize_exchange_connection` never makes more connect calls than its
remaining fuel allows. -/
theorem initConnRetry_le (t : ℕ → Bool) (fuel calls : ℕ) :
    (initConnRetry t fuel calls).1 ≤ calls + fuel := by
  induction fuel generalizing calls with
  | zero => simp [initConnRetry]
  | succ n ih =>
    simp only [initConnRetry]
    split
    · omega
    · have := ih (calls + 1)
      omega

/-- `ExchangeConnection::connect`'s loop never makes more connect calls than
its remaining fuel allows. -/
theorem tcpConnectRetry_le (t : ℕ → Bool) (fuel calls : ℕ) (res : Bool) :
    (tcpConnectRetry t fuel calls res).1 ≤ calls + fuel := by
  induction fuel generalizing calls res with
  | zero => simp [tcpConnectRetry]
  | succ n ih =>
    simp only [tcpConnectRetry]
    split
    · omega
    · have := ih (calls + 1) (t calls)
      omega

/-- C8 counterexample: against a target that never accepts,
`ExchangeConnection::connect` makes one initial attempt plus
`max_attempts = 5` retries — 6 connect calls, not "exactly" its configured
bound of 5. -/
theorem C8_counterexample_connect_six_attempts :
    (exchangeConnect (fun _ => false)).1 = 6 ∧ connectMaxAttempts = 5 ∧ (6 : ℕ) ≠ 5 := by
  decide

/-- C8 amended: against a never-accepting target,
`initialize_exchange_connection` makes exactly `max_retries` attempts before
surfacing the fatal error, while `ExchangeConnection::connect` makes
`1 + max_attempts = 6` attempts (its bound is hard-coded to 5); neither makes
any attempt beyond those totals. -/
theorem C8_amended_retry_counts :
    (∀ max_retries : ℕ,
      initialize_exchange_connection (fun _ => false) max_retries = (max_retries, false)) ∧
    exchangeConnect (fun _ => false) = (6, false) ∧
    (∀ (t : ℕ → Bool) (max_retries : ℕ),
      (initialize_exchange_connection t max_retries).1 ≤ max_retries) ∧
    (∀ t : ℕ → Bool, (exchangeConnect t).1 ≤ 1 + connectMaxAttempts) := by
  refine ⟨?_, by decide, ?_, ?_⟩
  · intro mr
    simpa using initConnRetry_allFail mr 0
  · intro t mr
    simpa using initConnRetry_le t mr 0
  · intro t
    simpa [connectMaxAttempts] using tcpConnectRetry_le t connectMaxAttempts 1 (t 0)

/-! ## C3: conservative confirmation -/

/-- `update_position` never touches the running capital. -/
theorem update_position_capital (rm : RiskManager) (o : strategy.Order) :
    (rm.update_position o).current_capital = rm.current_capital := by
  cases h : o.side <;> simp [RiskManager.update_position, h]

/-- C3: the risk state advances only on a confirmed execution.  If the send
fails or the confirmation read does not yield a response containing
`"EXECUTED"` (no marker, timeout, or transport error), both the running
position and the running capital are unchanged; the capital is in fact never
touched by `process_market_data`; and whenever the position did change, the
send succeeded and the response carried the marker. -/
theorem C3_unconfirmed_leaves_risk_state_unchanged :
    (∀ (agg : MarketDataAggregator) (rm : RiskManager) (env : MDEnv),
      env.sendOk = false ∨ confirmExecuted env.confirm = false →
      (process_market_data agg rm env).2.1.current_position = rm.current_position ∧
      (process_market_data agg rm env).2.1.current_capital = rm.current_capital) ∧
    (∀ (agg : MarketDataAggregator) (rm : RiskManager) (env : MDEnv),
      (process_market_data agg rm env).2.1.current_capital = rm.current_capital) ∧
    (∀ (agg : MarketDataAggregator) (rm : RiskManager) (env : MDEnv),
      (process_market_data agg rm env).2.1.current_position ≠ rm.current_position →
      env.sendOk = true ∧ confirmExecuted env.confirm = true) := by
  refine ⟨?_, ?_, ?_⟩ <;> intro agg rm env <;>
    unfold process_market_data <;>
    repeat' split
  all_goals simp_all [confirmExecuted, update_position_capital]

/-- Witness for `C3_unconfirmed_leaves_risk_state_unchanged`: a confirmation
timeout after a successful send leaves position and capital unchanged. -/
theorem C3_witness :
    (process_market_data c7agg0 (RiskManager.new 50 1000 (1/100) 10000)
        ⟨false, some ⟨10, 100⟩, some ⟨"SYMBOL", 10, 1, .Buy⟩, true, .timedOut⟩).2.1.current_position
      = (RiskManager.new 50 1000 (1/100) 10000).current_position ∧
    (process_market_data c7agg0 (RiskManager.new 50 1000 (1/100) 10000)
        ⟨false, some ⟨10, 100⟩, some ⟨"SYMBOL", 10, 1, .Buy⟩, true, .timedOut⟩).2.1.current_capital
      = (RiskManager.new 50 1000 (1/100) 10000).current_capital :=
  C3_unconfirmed_leaves_risk_state_unchanged.1 c7agg0 (RiskManager.new 50 1000 (1/100) 10000)
    ⟨false, some ⟨10, 100⟩, some ⟨"SYMBOL", 10, 1, .Buy⟩, true, .timedOut⟩ (Or.inr rfl)

/-! ## C4: the risk gate's evaluation -/

/-- The risk manager of the spec's §8 example: limit 50, position 45, with a
loss limit loose enough not to interfere. -/
def c4rm : RiskManager :=
  { RiskManager.new 50 1000 (1/100) 10000 with current_position := 45 }

/-- C4: `evaluate_order` first clamps the quantity per the spec's clamp
description, then rejects when the potential loss exceeds the per-trade
bound, then rejects a zero adjusted quantity, and otherwise emits a copy of
the order differing only in the quantity; an emitted order's hypothetical
post-trade position is always within `max_position_size`; and in the §8
example (limit 50, position 45) a Buy for 20 is emitted with quantity 5. -/
theorem C4_evaluate_order_behaviour :
    (∀ (rm : RiskManager) (o : strategy.Order) (p : ℚ),
      rm.evaluate_order o p =
        (if rm.max_loss_per_trade <
              p * (specClampedQuantity rm.max_position_size rm.current_position o.side o.quantity : ℚ)
                * rm.stop_loss_percentage then none
         else if specClampedQuantity rm.max_position_size rm.current_position o.side o.quantity = 0 then none
         else some { o with
           quantity := specClampedQuantity rm.max_position_size rm.current_position o.side o.quantity })) ∧
    (∀ (rm : RiskManager) (o : strategy.Order) (p : ℚ) (o2 : strategy.Order),
      rm.evaluate_order o p = some o2 →
      o2.symbol = o.symbol ∧ o2.price = o.price ∧ o2.side = o.side ∧
      o2.quantity = specClampedQuantity rm.max_position_size rm.current_position o.side o.quantity ∧
      (match o.side with
       | .Buy => rm.current_position + (o2.quantity : ℤ)
       | .Sell => rm.current_position - (o2.quantity : ℤ)).natAbs ≤ rm.max_position_size) ∧
    c4rm.evaluate_order ⟨"SYMBOL", 10, 20, .Buy⟩ 10 = some ⟨"SYMBOL", 10, 5, .Buy⟩ := by
  refine ⟨?_, ?_, ?_⟩
  · intro rm o p
    rfl
  · intro rm o p o2 h
    have he : rm.evaluate_order o p =
        (if rm.max_loss_per_trade <
              p * (specClampedQuantity rm.max_position_size rm.current_position o.side o.quantity : ℚ)
                * rm.stop_loss_percentage then none
         else if specClampedQuantity rm.max_position_size rm.current_position o.side o.quantity = 0 then none
         else some { o with
           quantity := specClampedQuantity rm.max_position_size rm.current_position o.side o.quantity }) := rfl
    rw [he] at h
    split at h
    · exact absurd h (by simp)
    · split at h
      · exact absurd h (by simp)
      · rename_i hloss hzero
        obtain rfl : o2 = { o with
            quantity := specClampedQuantity rm.max_position_size rm.current_position o.side o.quantity } :=
          (Option.some.injEq _ _ ▸ h).symm
        refine ⟨rfl, rfl, rfl, rfl, ?_⟩
        cases hside : o.side
        case Buy =>
          simp only [specClampedQuantity, hside] at hzero ⊢
          by_cases hclamp : rm.max_position_size <
              (rm.current_position + (o.quantity : ℤ)).natAbs
          · simp only [if_pos hclamp] at hzero ⊢
            omega
          · simp only [if_neg hclamp] at hzero ⊢
            omega
        case Sell =>
          simp only [specClampedQuantity, hside] at hzero ⊢
          by_cases hclamp : rm.max_position_size <
              (rm.current_position - (o.quantity : ℤ)).natAbs
          · simp only [if_pos hclamp] at hzero ⊢
            omega
          · simp only [if_neg hclamp] at hzero ⊢
            omega
  · have h5 : Int.toNat 5 = 5 := by decide
    norm_num [RiskManager.evaluate_order, c4rm, RiskManager.new, h5]

/-- Witness for `C4_evaluate_order_behaviour`: the emitted order of the §8
example keeps every field but the quantity and lands the position exactly on
the limit. -/
theorem C4_witness :
    (⟨"SYMBOL", 10, 5, .Buy⟩ : strategy.Order).symbol = "SYMBOL" ∧
    (⟨"SYMBOL", 10, 5, .Buy⟩ : strategy.Order).quantity
      = specClampedQuantity c4rm.max_position_size c4rm.current_position .Buy 20 ∧
    (match (⟨"SYMBOL", 10, 20, .Buy⟩ : strategy.Order).side with
     | .Buy => c4rm.current_position + ((⟨"SYMBOL", 10, 5, .Buy⟩ : strategy.Order).quantity : ℤ)
     | .Sell => c4rm.current_position - ((⟨"SYMBOL", 10, 5, .Buy⟩ : strategy.Order).quantity : ℤ)).natAbs
      ≤ c4rm.max_position_size := by
  have h := C4_evaluate_order_behaviour.2.1 c4rm ⟨"SYMBOL", 10, 20, .Buy⟩ 10 ⟨"SYMBOL", 10, 5, .Buy⟩
    (by
      have h5 : Int.toNat 5 = 5 := by decide
      norm_num [RiskManager.evaluate_order, c4rm, RiskManager.new, h5])
  exact ⟨h.1, h.2.2.2.1, h.2.2.2.2⟩

/-! ## C9: binary frame round-trip -/

/-- C9: for every message and every payload whose length fits the four-byte
length field, deserializing the serialized frame reproduces the message
exactly. -/
theorem C9_binary_roundtrip (m : BinaryMessage) (h : m.data.length < 4294967296) :
    BinaryMessage.deserialize (BinaryMessage.serialize m) = some m := by
  obtain ⟨t, data⟩ := m
  simp only [BinaryMessage.serialize, u32le, List.cons_append, List.nil_append,
    BinaryMessage.deserialize]
  have hL : data.length % 4294967296 % 256
      + 256 * (data.length % 4294967296 / 256 % 256)
      + 65536 * (data.length % 4294967296 / 65536 % 256)
      + 16777216 * (data.length % 4294967296 / 16777216 % 256) = data.length := by
    simp only [BinaryMessage.data] at h
    omega
  rw [hL]
  simp

/-- Witness for `C9_binary_roundtrip`, at the frame of the repository's own
serialization test: type byte 1, payload `[1, 2, 3, 4, 5]`. -/
theorem C9_witness :
    (⟨1, [1, 2, 3, 4, 5]⟩ : BinaryMessage).data.length < 4294967296 ∧
    BinaryMessage.deserialize (BinaryMessage.serialize ⟨1, [1, 2, 3, 4, 5]⟩)
      = some ⟨1, [1, 2, 3, 4, 5]⟩ :=
  ⟨by decide, C9_binary_roundtrip ⟨1, [1, 2, 3, 4, 5]⟩ (by decide)⟩

/-! ## C10: reachable positions stay within the limit -/

/-- One confirmed-trade step of the event loop's risk handling (`main.rs`
lines 231-246): evaluate the candidate order at the tick price; an approved
order is applied with `update_position`, a rejected one leaves the state
alone. -/
def riskStep (rm : RiskManager) (op : strategy.Order × ℚ) : RiskManager :=
  match rm.evaluate_order op.1 op.2 with
  | some approved => rm.update_position approved
  | none => rm

/-- `riskStep` never changes the configured position limit. -/
theorem riskStep_max (rm : RiskManager) (op : strategy.Order × ℚ) :
    (riskStep rm op).max_position_size = rm.max_position_size := by
  unfold riskStep
  rcases h : rm.evaluate_order op.1 op.2 with _ | o2
  · rfl
  · cases hs : o2.side <;> simp [RiskManager.update_position, hs]

/-- One approved-and-applied step keeps the position within the limit: an
unclamped approval was checked against the limit directly, and a clamped
approval lands the position exactly on the limit. -/
theorem riskStep_invariant (rm : RiskManager) (op : strategy.Order × ℚ)
    (h : rm.current_position.natAbs ≤ rm.max_position_size) :
    (riskStep rm op).current_position.natAbs ≤ rm.max_position_size := by
  unfold riskStep
  rcases heval : rm.evaluate_order op.1 op.2 with _ | o2
  · exact h
  · have he : rm.evaluate_order op.1 op.2 =
        (if rm.max_loss_per_trade <
              op.2 * (specClampedQuantity rm.max_position_size rm.current_position op.1.side op.1.quantity : ℚ)
                * rm.stop_loss_percentage then none
         else if specClampedQuantity rm.max_position_size rm.current_position op.1.side op.1.quantity = 0 then none
         else some { op.1 with
           quantity := specClampedQuantity rm.max_position_size rm.current_position op.1.side op.1.quantity }) := rfl
    rw [he] at heval
    split at heval
    · exact absurd heval (by simp)
    · split at heval
      · exact absurd heval (by simp)
      · rename_i hloss hzero
        obtain rfl : o2 = { op.1 with
            quantity := specClampedQuantity rm.max_position_size rm.current_position op.1.side op.1.quantity } :=
          (Option.some.injEq _ _ ▸ heval).symm
        cases hside : op.1.side
        case Buy =>
          simp only [specClampedQuantity, hside, RiskManager.update_position] at hzero ⊢
          by_cases hclamp : rm.max_position_size <
              (rm.current_position + (op.1.quantity : ℤ)).natAbs
          · simp only [if_pos hclamp] at hzero ⊢
            omega
          · simp only [if_neg hclamp] at hzero ⊢
            omega
        case Sell =>
          simp only [specClampedQuantity, hside, RiskManager.update_position] at hzero ⊢
          by_cases hclamp : rm.max_position_size <
              (rm.current_position - (op.1.quantity : ℤ)).natAbs
          · simp only [if_pos hclamp] at hzero ⊢
            omega
          · simp only [if_neg hclamp] at hzero ⊢
            omega

/-- C10: starting from position 0, along any sequence of orders that
`evaluate_order` approves at the then-current state and `update_position`
then applies, the absolute position never leaves `[-max_position_size,
max_position_size]`, even though `update_position` itself performs no check. -/
theorem C10_reachable_position_bounded
    (mps : ℕ) (mlpt slp cap : ℚ) (steps : List (strategy.Order × ℚ)) :
    (steps.foldl riskStep (RiskManager.new mps mlpt slp cap)).current_position.natAbs ≤ mps := by
  have key : ∀ (l : List (strategy.Order × ℚ)) (rm : RiskManager),
      rm.max_position_size = mps → rm.current_position.natAbs ≤ mps →
      (l.foldl riskStep rm).current_position.natAbs ≤ mps := by
    intro l
    induction l with
    | nil => intro rm h1 h2; simpa using h2
    | cons hd tl ih =>
      intro rm h1 h2
      have hmax := riskStep_max rm hd
      have hinv := riskStep_invariant rm hd (h1 ▸ h2)
      exact ih (riskStep rm hd) (hmax.trans h1) (h1 ▸ hinv)
  exact key steps (RiskManager.new mps mlpt slp cap) rfl (by simp [RiskManager.new])

/-! ## C7: the unweighted aggregator -/

/-- Tail of an append with a nonempty left part. -/
theorem tail_append_left {α : Type} (l1 l2 : List α) (h : l1 ≠ []) :
    (l1 ++ l2).tail = l1.tail ++ l2 := by
  cases l1 <;> simp_all

/-- `max?` folds one appended element on the right. -/
theorem max?_concat (l : List ℚ) (x : ℚ) :
    (l ++ [x]).max? = some (match l.max? with | some m => max m x | none => x) := by
  cases l with
  | nil => rfl
  | cons a as => simp [List.max?, List.foldl_append]

/-- `min?` folds one appended element on the right. -/
theorem min?_concat (l : List ℚ) (x : ℚ) :
    (l ++ [x]).min? = some (match l.min? with | some m => min m x | none => x) := by
  cases l with
  | nil => rfl
  | cons a as => simp [List.min?, List.foldl_append]

/-- Pushing one element through a FIFO window of positive capacity `w`:
append it, then drop the head exactly when the window would overflow. -/
theorem takeLast_concat (w : ℕ) (hw : 0 < w) (l : List ℚ) (x : ℚ) :
    takeLast w (l ++ [x]) =
      if w < (takeLast w l ++ [x]).length then (takeLast w l ++ [x]).tail
      else takeLast w l ++ [x] := by
  unfold takeLast
  by_cases hn : l.length < w
  · have h1 : l.length - w = 0 := by omega
    have h2 : (l ++ [x]).length - w = 0 := by simp; omega
    rw [h1, h2]
    simp only [List.drop_zero]
    rw [if_neg]
    simp
    omega
  · push_neg at hn
    have hlen : (l.drop (l.length - w)).length = w := by
      rw [List.length_drop]; omega
    have hcond : w < (l.drop (l.length - w) ++ [x]).length := by
      simp [hlen]
    rw [if_pos hcond]
    have hne : l.drop (l.length - w) ≠ [] := by
      intro hemp
      rw [hemp] at hlen
      simp at hlen
      omega
    rw [tail_append_left _ _ hne, List.tail_drop]
    have h3 : (l ++ [x]).length - w = (l.length - w) + 1 := by simp; omega
    rw [h3, List.drop_append_of_le_length (by omega)]

/-- Closed form of a run of the unweighted aggregator: the window holds the
last `w` prices, the average is their mean, the volume is the cumulative sum,
and high/low are the running extrema of all prices seen. -/
theorem runAgg_closed (w : ℕ) (hw : 0 < w) (ts : List Tick) :
    runAgg ⟨[], w, none, 0, none, none, none⟩ ts =
      ⟨takeLast w (ts.map Tick.price), w,
       (if (ts.map Tick.price).isEmpty then none
        else some ((takeLast w (ts.map Tick.price)).sum
          / ((takeLast w (ts.map Tick.price)).length : ℚ))),
       (ts.map Tick.volume).sum,
       (ts.map Tick.price).max?,
       (ts.map Tick.price).min?,
       none⟩ := by
  induction ts using List.reverseRecOn with
  | nil => simp [runAgg, takeLast]
  | append_singleton ts t ih =>
    have hfold : runAgg ⟨[], w, none, 0, none, none, none⟩ (ts ++ [t])
        = (runAgg ⟨[], w, none, 0, none, none, none⟩ ts).update t := by
      simp [runAgg, List.foldl_append]
    rw [hfold, ih]
    have hpw := takeLast_concat w hw (ts.map Tick.price) t.price
    have hlen2 : 0 < (takeLast w ((ts.map Tick.price) ++ [t.price])).length := by
      unfold takeLast
      rw [List.length_drop]
      simp
      omega
    have hne2 : (takeLast w ((ts.map Tick.price) ++ [t.price])).isEmpty = false := by
      cases hcase : takeLast w ((ts.map Tick.price) ++ [t.price]) with
      | nil => rw [hcase] at hlen2; simp at hlen2
      | cons a as => rfl
    simp only [MarketDataAggregator.update, MarketDataAggregator.calculate_sma,
      List.map_append, List.map_cons, List.map_nil, List.sum_append, List.sum_cons,
      List.sum_nil, max?_concat, min?_concat]
    rw [← hpw]
    simp [hne2]

/-- C7: in unweighted mode, after any sequence of ticks the average equals
the arithmetic mean of the last `window_size` prices (all prices when fewer
have arrived, `none` before the first), the high/low equal the running
max/min of all prices seen, and the total volume is the cumulative sum of
all volumes; the example run (window 3, prices 10, 11, 12, 13, volumes 100,
150, 200, 250) produces averages 10, 10.5, 11, 12, cumulative volumes 100,
250, 450, 700, running highs 10, 11, 12, 13, and running low 10. -/
theorem C7_aggregator_unweighted :
    (∀ (w : ℕ) (ts : List Tick) (a : MarketDataAggregator),
      0 < w → MarketDataAggregator.new w none = some a →
      (runAgg a ts).sma
        = (if (ts.map Tick.price).isEmpty then none
           else some ((takeLast w (ts.map Tick.price)).sum
             / ((takeLast w (ts.map Tick.price)).length : ℚ))) ∧
      (runAgg a ts).total_volume = (ts.map Tick.volume).sum ∧
      (runAgg a ts).high_price = (ts.map Tick.price).max? ∧
      (runAgg a ts).low_price = (ts.map Tick.price).min?) ∧
    ([1, 2, 3, 4].map (fun n => (runAgg c7agg0 (exampleTicks.take n)).sma)
      = [some 10, some (21/2), some 11, some 12]) ∧
    ([1, 2, 3, 4].map (fun n => (runAgg c7agg0 (exampleTicks.take n)).total_volume)
      = [100, 250, 450, 700]) ∧
    ([1, 2, 3, 4].map (fun n => (runAgg c7agg0 (exampleTicks.take n)).high_price)
      = [some 10, some 11, some 12, some 13]) ∧
    ([1, 2, 3, 4].map (fun n => (runAgg c7agg0 (exampleTicks.take n)).low_price)
      = [some 10, some 10, some 10, some 10]) := by
  refine ⟨?_, ?_, ?_, ?_, ?_⟩
  · intro w ts a hw hnew
    have ha : a = ⟨[], w, none, 0, none, none, none⟩ := by
      simp only [MarketDataAggregator.new, Option.some.injEq] at hnew
      exact hnew.symm
    rw [ha, runAgg_closed w hw ts]
    exact ⟨rfl, rfl, rfl, rfl⟩
  all_goals
    norm_num [c7agg0, exampleTicks, runAgg, MarketDataAggregator.update,
      MarketDataAggregator.calculate_sma]

/-- Witness for `C7_aggregator_unweighted`: one tick through a fresh window-3
aggregator. -/
theorem C7_witness :
    (0 < 3 ∧ MarketDataAggregator.new 3 none = some c7agg0) ∧
    ((runAgg c7agg0 [⟨10, 100⟩]).sma
        = (if (([⟨10, 100⟩] : List Tick).map Tick.price).isEmpty then none
           else some ((takeLast 3 (([⟨10, 100⟩] : List Tick).map Tick.price)).sum
             / ((takeLast 3 (([⟨10, 100⟩] : List Tick).map Tick.price)).length : ℚ))) ∧
      (runAgg c7agg0 [⟨10, 100⟩]).total_volume = (([⟨10, 100⟩] : List Tick).map Tick.volume).sum ∧
      (runAgg c7agg0 [⟨10, 100⟩]).high_price = (([⟨10, 100⟩] : List Tick).map Tick.price).max? ∧
      (runAgg c7agg0 [⟨10, 100⟩]).low_price = (([⟨10, 100⟩] : List Tick).map Tick.price).min?) :=
  ⟨⟨by decide, rfl⟩,
   C7_aggregator_unweighted.1 3 [⟨10, 100⟩] c7agg0 (by decide) rfl⟩
